/-
Verification of the sous reconciliation core: the Deployment Bundle and
Diff Concentrator (lib/diff_concentrator.go), the per-deployment Rectifier
(sous/rectifier.go), and the Resolution Poller state machine
(lib/single_deployment_poller.go).

Pure functions of the Go source are translated directly; the channel-driven
`concentrate` loop is embedded as a fold over an arbitrary finite list of
input events (any interleaving of the four input channels), followed by the
shutdown flush, with the four output channels and the error channel merged
into one ordered output list.  Supporting types that the source declares in
files outside this snapshot (Deployment, the keyed Deployments collection,
PutbackManifests, ResolveState, ResolveFilter) are modelled from the
specification; each such definition says so in its doc comment.
-/
import Mathlib

namespace Sous

/-- Modelled from the spec: ManifestID is the stable identity of a logical
application, a source-code location plus an optional flavor (spec section 3). -/
structure ManifestID where
  location : String
  flavor : String
deriving DecidableEq

/-- Modelled from the spec: DeploymentID is a ManifestID plus a cluster name,
identifying one concrete deployment within one cluster (spec section 3). -/
structure DeploymentID where
  manifestID : ManifestID
  cluster : String
deriving DecidableEq

/-- Modelled from the spec: the per-cluster payload of a Deployment record that
matters to the claims: image/version, resources and instance count
(spec section 3).  Startup and health-check configuration is carried the same
way by the source and is not inspected by any claim, so it is folded into the
structural equality of this record. -/
structure DeploySpec where
  version : String
  resources : List (String × String)
  numInstances : Nat
deriving DecidableEq

/-- Modelled from the spec: a materialized deployment record, compared by
structural equality (spec section 3).  The ManifestID and cluster name are
carried directly; everything else lives in `spec`. -/
structure Deployment where
  manifestID : ManifestID
  clusterName : String
  spec : DeploySpec
deriving DecidableEq

/-- Deployment.ID mirrors the source: the DeploymentID of a Deployment is its
ManifestID together with its cluster name. -/
def Deployment.ID (d : Deployment) : DeploymentID :=
  ⟨d.manifestID, d.clusterName⟩

/-- Modelled from the spec: the keyed Deployments collection (the before/after
sets of a bundle are "two deployment sets, keyed by DeploymentID", spec
section 3).  `depsAdd` is the collection's Add: it inserts the deployment when
no element with the same DeploymentID is present and reports acceptance,
mirroring the CMap Add the source calls. -/
def depsAdd (ds : List Deployment) (d : Deployment) : List Deployment × Bool :=
  if ds.any (fun e => e.ID = d.ID) then (ds, false) else (ds ++ [d], true)

/-- DeployablePair from the source: a before/after pair of Deployments, either
side possibly absent.  Provenance tagging does not affect any claim. -/
structure DeployablePair where
  Prior : Option Deployment
  Post : Option Deployment
deriving DecidableEq

/-- Manifest, modelled from the spec: the putback projection of a set of
per-cluster Deployments, tagged with its ManifestID, carrying the per-cluster
specs; compared structurally (spec section 3).  Base-manifest metadata (owners
and other non-deployment fields) comes from the same base snapshot on both
sides of a pair, so it cannot influence identity or structural comparison and
is not modelled. -/
structure Manifest where
  id : ManifestID
  deps : List (String × DeploySpec)
deriving DecidableEq

/-- ManifestPair from the source: a before/after pair of Manifests tagged with
the pair's name (a ManifestID). -/
structure ManifestPair where
  name : ManifestID
  Prior : Option Manifest
  Post : Option Manifest
deriving DecidableEq

/-- deploymentBundle from the source: the consumed flag and the before and
after deployment sets. -/
structure DeploymentBundle where
  consumed : Bool
  before : List Deployment
  after : List Deployment
deriving DecidableEq

/-- newDepBundle from the source: an unconsumed bundle with empty sides. -/
def newDepBundle : DeploymentBundle :=
  ⟨false, [], []⟩

/-- Error tags for deploymentBundle.add, one per distinct error return of the
source function. -/
inductive AddErr where
  | consumed
  | twoClusters
  | noCluster
  | collisionBefore
  | collisionAfter
deriving DecidableEq

/-- Cluster-name determination of deploymentBundle.add: prior names the
cluster; a post disagreeing with a present prior is the two-clusters invariant
error; an empty cluster name is the no-cluster invariant error. -/
def clusterOf (pair : DeployablePair) : Except AddErr String :=
  match pair.Prior, pair.Post with
  | none, none => .error .noCluster
  | some pr, none =>
      if pr.clusterName = "" then .error .noCluster else .ok pr.clusterName
  | none, some po =>
      if po.clusterName = "" then .error .noCluster else .ok po.clusterName
  | some pr, some po =>
      if pr.clusterName ≠ po.clusterName then .error .twoClusters
      else if pr.clusterName = "" then .error .noCluster
      else .ok pr.clusterName

/-- The before-side insertion step of add: a present prior is added to the
before set, a duplicate DeploymentID is the prior-collision error. -/
def addPrior (db : DeploymentBundle) (pr : Option Deployment) :
    DeploymentBundle × Option AddErr :=
  match pr with
  | none => (db, none)
  | some d =>
      match depsAdd db.before d with
      | (bef, true) => ({ db with before := bef }, none)
      | (_, false) => (db, some .collisionBefore)

/-- The after-side insertion step of add: a present post is added to the after
set, a duplicate DeploymentID is the post-collision error.  As in the source,
this runs after the before side has already been mutated. -/
def addPost (db : DeploymentBundle) (po : Option Deployment) :
    DeploymentBundle × Option AddErr :=
  match po with
  | none => (db, none)
  | some d =>
      match depsAdd db.after d with
      | (aft, true) => ({ db with after := aft }, none)
      | (_, false) => (db, some .collisionAfter)

/-- deploymentBundle.add from the source: refuse consumed bundles, validate a
single nonempty cluster name, then insert the prior into the before set and
the post into the after set.  The returned bundle is the state after the call,
including the partial mutation the source leaves behind when the after side
collides after the before side was already extended. -/
def DeploymentBundle.add (db : DeploymentBundle) (pair : DeployablePair) :
    DeploymentBundle × Option AddErr :=
  if db.consumed then (db, some .consumed)
  else
    match clusterOf pair with
    | .error e => (db, some e)
    | .ok _ =>
        match addPrior db pair.Prior with
        | (db1, some e) => (db1, some e)
        | (db1, none) => addPost db1 pair.Post

/-- deploymentBundle.clusters from the source: the de-duplicated set of cluster
names contributed on either side.  The source sorts the names; only the count
is ever consumed, so the order is immaterial and dedup keeps first
occurrences. -/
def DeploymentBundle.clusters (db : DeploymentBundle) : List String :=
  ((db.before.map (fun d => d.clusterName)) ++
    (db.after.map (fun d => d.clusterName))).dedup

/-- Ordered insertion by cluster name, used to give putback manifests a
canonical per-cluster ordering so that structural equality of the model agrees
with the map-based equality of the source. -/
def insertDep (x : String × DeploySpec) :
    List (String × DeploySpec) → List (String × DeploySpec)
  | [] => [x]
  | y :: ys => if x.1 ≤ y.1 then x :: y :: ys else y :: insertDep x ys

/-- Sort a per-cluster spec list by cluster name. -/
def sortDeps (l : List (String × DeploySpec)) : List (String × DeploySpec) :=
  l.foldr insertDep []

/-- The per-manifest entry list of a putback: the cluster/spec entries of the
deployments carrying the given ManifestID, canonically ordered. -/
def putbackDeps (ds : List Deployment) (mid : ManifestID) :
    List (String × DeploySpec) :=
  sortDeps (ds.filterMap (fun d =>
    if d.manifestID = mid then some (d.clusterName, d.spec) else none))

/-- Modelled from the spec: PutbackManifests folds a deployment set into
manifest form, one manifest per distinct ManifestID present (spec section 4.1:
the putback step yields at most one manifest per side exactly when the side's
deployments agree on identity). -/
def putback (ds : List Deployment) : List Manifest :=
  ((ds.map (fun d => d.manifestID)).dedup).map
    (fun mid => ⟨mid, putbackDeps ds mid⟩)

/-- Error tags for deploymentBundle.manifestPair: an ambiguous putback (the
Only call saw more than one manifest) or the nil pair name (the source
dereferences a nil Prior when both putbacks are empty, which aborts the task). -/
inductive MPErr where
  | ambiguous (count : Nat)
  | nilName
deriving DecidableEq

/-- Manifests.Only, modelled from the spec: the single manifest of a putback
result, none for an empty result, an error when more than one manifest was
produced (ambiguous aggregation, spec section 4.1). -/
def Only : List Manifest → Except MPErr (Option Manifest)
  | [] => .ok none
  | [m] => .ok (some m)
  | m1 :: m2 :: rest => .error (.ambiguous (m1 :: m2 :: rest).length)

/-- deploymentBundle.manifestPair from the source: mark the bundle consumed
unconditionally, put back each side, take the only manifest of each, and name
the pair by the Post manifest when present, else by the Prior manifest.  The
source does not check the consumed flag here.  When both sides are absent the
source dereferences a nil pointer computing the name; that is the nilName
error. -/
def DeploymentBundle.manifestPair (db : DeploymentBundle) :
    DeploymentBundle × Except MPErr ManifestPair :=
  let db' := { db with consumed := true }
  match Only (putback db.before) with
  | .error e => (db', .error e)
  | .ok priorOpt =>
      match Only (putback db.after) with
      | .error e => (db', .error e)
      | .ok postOpt =>
          match postOpt, priorOpt with
          | some pm, _ => (db', .ok ⟨pm.id, priorOpt, some pm⟩)
          | none, some prm => (db', .ok ⟨prm.id, priorOpt, none⟩)
          | none, none => (db', .error .nilName)

/-- The concentrator error stream carries the add errors, the resolve errors
and the blank-pair dispatch error. -/
inductive ConcErr where
  | addErr (e : AddErr)
  | mpErr (e : MPErr)
  | blankPair
deriving DecidableEq

/-- One event on one of the five output channels of the DiffConcentrator. -/
inductive OutEvent where
  | created (m : Manifest)
  | deleted (m : Manifest)
  | retained (m : Manifest)
  | modified (mp : ManifestPair)
  | errored (e : ConcErr)
deriving DecidableEq

/-- DiffConcentrator.dispatch from the source: a pair with no Prior goes to the
Created channel carrying Post, a pair with no Post goes to the Deleted channel
carrying Prior, structurally equal sides go to the Retained channel carrying
Post, anything else goes to the Modified channel; a pair with neither side is
the blank-pair error. -/
def dispatch (mp : ManifestPair) : OutEvent :=
  match mp.Prior with
  | none =>
      match mp.Post with
      | none => .errored .blankPair
      | some m => .created m
  | some pm =>
      match mp.Post with
      | none => .deleted pm
      | some m => if pm = m then .retained m else .modified mp

/-- Defs carries the configuration the concentrator consults: the full set of
expected cluster names.  Only its size enters the completeness check, exactly
as in the source. -/
structure Defs where
  clusters : List String
deriving DecidableEq

/-- The tag of an input event: which of the four input channels it arrived on. -/
inductive InTag where
  | created
  | deleted
  | retained
  | modified
deriving DecidableEq

/-- One event of the merged input stream of concentrate: a channel tag and the
DeployablePair it carried. -/
structure InEvent where
  tag : InTag
  pair : DeployablePair
deriving DecidableEq

/-- The ManifestID concentrate extracts from an event: the Post side for
created and retained events, the Prior side for deleted and modified events.
A missing keyed side is a nil dereference in the source, so the key is
optional here and a none key crashes the loop in the model. -/
def keyOf (e : InEvent) : Option ManifestID :=
  match e.tag with
  | .created => e.pair.Post.map (fun d => d.manifestID)
  | .retained => e.pair.Post.map (fun d => d.manifestID)
  | .deleted => e.pair.Prior.map (fun d => d.manifestID)
  | .modified => e.pair.Prior.map (fun d => d.manifestID)

/-- The state of the concentrate loop: the bundle map keyed by ManifestID (an
association list owned by the single loop task), the ordered list of events
emitted so far on the five output channels, and whether the loop task has
aborted on a nil dereference. -/
structure ConcState where
  collect : List (ManifestID × DeploymentBundle)
  outputs : List OutEvent
  crashed : Bool
deriving DecidableEq

/-- Association-list lookup for the bundle map. -/
def lookupB : List (ManifestID × DeploymentBundle) → ManifestID →
    Option DeploymentBundle
  | [], _ => none
  | (k, v) :: rest, mid => if k = mid then some v else lookupB rest mid

/-- Association-list update for the bundle map: replace the binding when the
key is present, append it otherwise. -/
def updateB : List (ManifestID × DeploymentBundle) → ManifestID →
    DeploymentBundle → List (ManifestID × DeploymentBundle)
  | [], mid, b => [(mid, b)]
  | (k, v) :: rest, mid, b =>
      if k = mid then (mid, b) :: rest else (k, v) :: updateB rest mid b

/-- DiffConcentrator.resolve on one bundle: compute the manifest pair and
dispatch it; a resolution error goes to the error channel instead.  The
nilName case is the nil dereference of the source, which kills the task: it
emits nothing and reports the crash. -/
def resolveB (b : DeploymentBundle) : DeploymentBundle × List OutEvent × Bool :=
  match b.manifestPair with
  | (b', .error MPErr.nilName) => (b', [], true)
  | (b', .error e) => (b', [.errored (.mpErr e)], false)
  | (b', .ok mp) => (b', [dispatch mp], false)

/-- One iteration of the concentrate loop on one received event (addPair in
the source): find or create the bundle for the event's ManifestID, add the
pair, forward an add error to the error channel, and otherwise resolve the
bundle as soon as its cluster set is as large as the configured cluster set. -/
def stepEv (defs : Defs) (s : ConcState) (e : InEvent) : ConcState :=
  if s.crashed then s
  else
    match keyOf e with
    | none => { s with crashed := true }
    | some mid =>
        let b0 := (lookupB s.collect mid).getD newDepBundle
        match b0.add e.pair with
        | (b1, some err) =>
            ⟨updateB s.collect mid b1, s.outputs ++ [.errored (.addErr err)], false⟩
        | (b1, none) =>
            if b1.clusters.length = defs.clusters.length then
              match resolveB b1 with
              | (b2, outs, crash) =>
                  ⟨updateB s.collect mid b2, s.outputs ++ outs, crash⟩
            else ⟨updateB s.collect mid b1, s.outputs, false⟩

/-- The shutdown flush of concentrate: every bundle never consumed is resolved
and dispatched; a crash of the task stops the flush where it happened. -/
def flushList : List (ManifestID × DeploymentBundle) → List OutEvent × Bool
  | [] => ([], false)
  | (_, b) :: rest =>
      if b.consumed then flushList rest
      else
        match resolveB b with
        | (_, outs, true) => (outs, true)
        | (_, outs, false) =>
            match flushList rest with
            | (outs2, c) => (outs ++ outs2, c)

/-- The initial state of the concentrate loop: empty bundle map, no outputs. -/
def initConc : ConcState :=
  ⟨[], [], false⟩

/-- concentrate from the source, as a function of one merged, arbitrarily
ordered finite input stream: consume every event, then flush the never
completed bundles.  The output list is everything sent on the five output
channels, in emission order. -/
def concentrate (defs : Defs) (es : List InEvent) : ConcState :=
  let s := es.foldl (stepEv defs) initConc
  if s.crashed then s
  else
    match flushList s.collect with
    | (outs, c) => { s with outputs := s.outputs ++ outs, crashed := c }

/-- Well-formedness of one input pair, as the external differ produces them:
at least one side present, both present sides agreeing on ManifestID and on a
nonempty cluster name. -/
def wfPairB (p : DeployablePair) : Bool :=
  match p.Prior, p.Post with
  | none, none => false
  | some d, none => decide (d.clusterName ≠ "")
  | none, some d => decide (d.clusterName ≠ "")
  | some d1, some d2 =>
      decide (d1.manifestID = d2.manifestID) &&
        decide (d1.clusterName = d2.clusterName) &&
        decide (d1.clusterName ≠ "")

/-- Well-formedness of one input event: a well-formed pair whose keyed side is
present. -/
def wfEvent (e : InEvent) : Bool :=
  wfPairB e.pair && (keyOf e).isSome

/-- Whether an output event is a manifest-level event for the given
ManifestID on one of the four non-error channels. -/
def outFor (M : ManifestID) : OutEvent → Bool
  | .created m => decide (m.id = M)
  | .deleted m => decide (m.id = M)
  | .retained m => decide (m.id = M)
  | .modified mp => decide (mp.name = M)
  | .errored _ => false

/-- The number of manifest-level events for the given ManifestID in an output
list. -/
def outCount (M : ManifestID) (l : List OutEvent) : Nat :=
  (l.filter (outFor M)).length

/-- Modelled from the spec: the ordered ResolveState enumeration of a single
deployment's convergence lifecycle (spec section 3 and 4.4). -/
inductive ResolveState where
  | NotPolled
  | NotStarted
  | NotVersion
  | PendingRequest
  | ErredHTTP
  | ErredRez
  | TasksStarting
  | InProgress
  | Complete
  | Failed
  | HTTPFailed
deriving DecidableEq

/-- Modelled from the spec: Complete, Failed and HTTPFailed are the terminal
states (spec section 4.4); the source compares against ResolveTERMINALS in
`finished`. -/
def ResolveState.terminal : ResolveState → Bool
  | .Complete => true
  | .Failed => true
  | .HTTPFailed => true
  | _ => false

/-- SingleDeploymentPoller.finished from the source: the poll loop is done
exactly when the current status is terminal. -/
def finished (st : ResolveState) : Bool :=
  st.terminal

/-- Modelled from the spec: a resolve-field filter describing which
(manifest, cluster, version) tuple a poller is watching (spec section 6); a
none matcher matches every value. -/
structure ResolveFilter where
  location : Option String
  flavor : Option String
  cluster : Option String
  tag : Option String
deriving DecidableEq

/-- Match one optional field matcher against a value. -/
def matchField (m : Option String) (v : String) : Bool :=
  match m with
  | none => true
  | some x => decide (x = v)

/-- Modelled from the spec: ResolveFilter.FilterDeployment checks every set
matcher of the filter against the corresponding deployment field. -/
def FilterDeployment (rf : ResolveFilter) (d : Deployment) : Bool :=
  matchField rf.location d.manifestID.location &&
    matchField rf.flavor d.manifestID.flavor &&
    matchField rf.cluster d.clusterName &&
    matchField rf.tag d.spec.version

/-- Modelled from the spec: ResolveFilter.FilterManifestID checks the manifest
identity matchers against a ManifestID. -/
def FilterManifestID (rf : ResolveFilter) (mid : ManifestID) : Bool :=
  matchField rf.location mid.location && matchField rf.flavor mid.flavor

/-- Modelled from the spec: a resolution error reported by the cluster, with
its transience classification attached; the transient-or-not predicate is a
pluggable policy (spec section 9), modelled as a tag on the error value. -/
structure RezErr where
  message : String
  transient : Bool
deriving DecidableEq

/-- IsTransientResolveError: the pluggable transience predicate, reading the
classification the error carries. -/
def IsTransientResolveError (e : RezErr) : Bool :=
  e.transient

/-- The change classification of a DiffResolution: stable, coming, or any
other description.  The source only ever compares against StableDiff and
ComingDiff. -/
inductive DiffDesc where
  | stableDiff
  | comingDiff
  | otherDiff
deriving DecidableEq

/-- Modelled from the spec: one resolution-log entry, carrying the ManifestID
it concerns, its change classification, and an optional error
(spec section 3). -/
structure DiffResolution where
  manifestID : ManifestID
  desc : DiffDesc
  error : Option RezErr
deriving DecidableEq

/-- Modelled from the spec: a cluster's self-reported ResolveStatus, with its
currently intended deployment set and its resolution log (spec section 3).
`started` identifies the resolution, used only for the resolveID of a poll
result. -/
structure ResolveStatus where
  intended : List Deployment
  log : List DiffResolution
  started : String
deriving DecidableEq

/-- statusData from the source: the deployments list kept for backwards
compatibility, and the completed and in-progress resolution statuses. -/
structure StatusData where
  deployments : List Deployment
  completed : Option ResolveStatus
  inProgress : Option ResolveStatus
deriving DecidableEq

/-- The filters of one SingleDeploymentPoller: the location filter (cluster,
tag and revision matchers cleared) and the id filter (cluster matcher
cleared), both derived from the base filter at construction. -/
structure PollerCfg where
  clusterName : String
  locationFilter : ResolveFilter
  idFilter : ResolveFilter
deriving DecidableEq

/-- pollResultSDP from the source: the computed state, the resolve identifier
and the optional error of one poll. -/
structure pollResultSDP where
  stat : ResolveState
  resolveID : String
  err : Option String
deriving DecidableEq

/-- diffResolutionForSDP from the source: the first resolution-log entry whose
ManifestID passes the filter, none when the status is absent or nothing
matches. -/
def diffResolutionForSDP (rstat : Option ResolveStatus) (rf : ResolveFilter) :
    Option DiffResolution :=
  match rstat with
  | none => none
  | some st => st.log.find? (fun rez => FilterManifestID rf rez.manifestID)

/-- The scan inside serverIntentSDP: remember the first intended deployment
passing the filter and bail out with none the moment a second one matches. -/
def serverIntentScan (rf : ResolveFilter) :
    List Deployment → Option Deployment → Option Deployment
  | [], acc => acc
  | d :: rest, acc =>
      if FilterDeployment rf d then
        match acc with
        | some _ => none
        | none => serverIntentScan rf rest (some d)
      else serverIntentScan rf rest acc

/-- serverIntentSDP from the source: the unique intended deployment passing
the filter, none when the status is absent, nothing matches, or more than one
deployment matches. -/
def serverIntentSDP (rstat : Option ResolveStatus) (rf : ResolveFilter) :
    Option Deployment :=
  match rstat with
  | none => none
  | some st => serverIntentScan rf st.intended none

/-- stateFeatures from the source: the server intent and the current
resolution entry of one resolution status, both selected by the location
filter. -/
def stateFeatures (cfg : PollerCfg) (rezState : Option ResolveStatus) :
    Option Deployment × Option DiffResolution :=
  (serverIntentSDP rezState cfg.locationFilter,
    diffResolutionForSDP rezState cfg.locationFilter)

/-- computeState from the source: the fixed case order mapping the observed
intent and resolution entry to a ResolveState — no intent is NotStarted, an
intent failing the id filter is NotVersion, a missing resolution entry is
PendingRequest, an entry with a transient error is ErredRez and with any other
error is Failed, a stable diff is Complete, a coming diff is TasksStarting,
and anything else is InProgress. -/
def computeState (idFilter : ResolveFilter) (srvIntent : Option Deployment)
    (current : Option DiffResolution) : ResolveState × Option RezErr :=
  match srvIntent with
  | none => (.NotStarted, none)
  | some d =>
      if FilterDeployment idFilter d = false then (.NotVersion, none)
      else
        match current with
        | none => (.PendingRequest, none)
        | some cur =>
            match cur.error with
            | some err =>
                if IsTransientResolveError err then (.ErredRez, some err)
                else (.Failed, some err)
            | none =>
                if cur.desc = DiffDesc.stableDiff then (.Complete, none)
                else if cur.desc = DiffDesc.comingDiff then (.TasksStarting, none)
                else (.InProgress, none)

/-- The backwards-compatibility munging at the top of pollOnce: a present
status whose intended list is empty borrows the top-level deployments list. -/
def fixIntended (deps : List Deployment) :
    Option ResolveStatus → Option ResolveStatus
  | none => none
  | some rs => if rs.intended = [] then some { rs with intended := deps } else some rs

/-- The munged status data pollOnce actually consults. -/
def mungeData (data : StatusData) : StatusData :=
  { data with
    completed := fixIntended data.deployments data.completed,
    inProgress := fixIntended data.deployments data.inProgress }

/-- computeState applied to the features of one resolution status, as pollOnce
does for the in-progress and the completed status. -/
def computeFor (cfg : PollerCfg) (rez : Option ResolveStatus) :
    ResolveState × Option RezErr :=
  computeState cfg.idFilter (stateFeatures cfg rez).1 (stateFeatures cfg rez).2

/-- SingleDeploymentPoller.result from the source: package a state and error
with the resolve identifier of the in-progress status. -/
def mkResult (data : StatusData) (r : ResolveState × Option RezErr) :
    pollResultSDP :=
  { stat := r.1,
    resolveID :=
      match data.inProgress with
      | some ip => ip.started
      | none => "<none in progress>",
    err := r.2.map (fun e => e.message) }

/-- The successful-retrieve path of pollOnce: munge the data, compute the
in-progress state, and when it is NotStarted, NotVersion or PendingRequest
answer with the state computed from the completed status instead. -/
def pollOnceOk (cfg : PollerCfg) (data0 : StatusData) : pollResultSDP :=
  let data := mungeData data0
  let cs := computeFor cfg data.inProgress
  if cs.1 = ResolveState.NotStarted ∨ cs.1 = ResolveState.NotVersion ∨
      cs.1 = ResolveState.PendingRequest then
    mkResult data (computeFor cfg data.completed)
  else mkResult data cs

/-- pollOnce from the source, as a function of the stored consecutive HTTP
error count and the outcome of the retrieve: a failed retrieve increments the
count and reports HTTPFailed past ten errors and ErredHTTP otherwise; a
successful retrieve zeroes the count and computes the resolution state. -/
def pollOnce (cfg : PollerCfg) (httpErrorCount : Nat)
    (resp : Except String StatusData) : Nat × pollResultSDP :=
  match resp with
  | .error e =>
      let c := httpErrorCount + 1
      if c > 10 then
        (c, { stat := .HTTPFailed,
              resolveID := "<none in progress>",
              err := some ("more than 10 HTTP errors, giving up; latest error: " ++ e) })
      else
        (c, { stat := .ErredHTTP, resolveID := "<none in progress>", err := some e })
  | .ok data => (0, pollOnceOk cfg data)

/-- The poller after a run of consecutive failing polls starting from a fresh
counter: the count so far and the latest result (the zeroth result is the
initial NotPolled report the source sends before the first poll). -/
def consecFails (cfg : PollerCfg) (e : String) : Nat → Nat × pollResultSDP
  | 0 => (0, { stat := .NotPolled, resolveID := "<none in progress>", err := none })
  | k + 1 => pollOnce cfg (consecFails cfg e k).1 (.error e)

/-- A concrete ManifestID for concrete instantiations. -/
def midW : ManifestID :=
  ⟨"github.example/app", ""⟩

/-- A second concrete ManifestID. -/
def midW2 : ManifestID :=
  ⟨"github.example/other", ""⟩

/-- A concrete deployment spec. -/
def specW1 : DeploySpec :=
  ⟨"1.0.0", [("cpus", "1")], 3⟩

/-- A second concrete deployment spec, differing from the first. -/
def specW2 : DeploySpec :=
  ⟨"2.0.0", [("cpus", "1")], 3⟩

/-- A concrete deployment of midW in cluster c1. -/
def depW1 : Deployment :=
  ⟨midW, "c1", specW1⟩

/-- A variant of depW1 with a different spec, same identity and cluster. -/
def depW1b : Deployment :=
  ⟨midW, "c1", specW2⟩

/-- A concrete deployment of midW in cluster c2. -/
def depW2 : Deployment :=
  ⟨midW, "c2", specW1⟩

/-- A variant of depW2 with a different spec. -/
def depW2b : Deployment :=
  ⟨midW, "c2", specW2⟩

/-- A poller configuration with match-all filters. -/
def cfgW : PollerCfg :=
  ⟨"c1", ⟨none, none, none, none⟩, ⟨none, none, none, none⟩⟩

/-- An empty status payload. -/
def dataW : StatusData :=
  ⟨[], none, none⟩

/-- A modification event for midW reported by cluster c1. -/
def evW1 : InEvent :=
  ⟨.modified, ⟨some depW1, some depW1b⟩⟩

/-- A modification event for midW reported by cluster c2. -/
def evW2 : InEvent :=
  ⟨.modified, ⟨some depW2, some depW2b⟩⟩

/-- A bundle of one ManifestID: every contribution carries that identity and a
nonempty cluster name, and at least one contribution is present. -/
def goodBundle (M : ManifestID) (b : DeploymentBundle) : Prop :=
  (∀ d ∈ b.before, d.manifestID = M ∧ d.clusterName ≠ "") ∧
  (∀ d ∈ b.after, d.manifestID = M ∧ d.clusterName ≠ "") ∧
  (b.before ≠ [] ∨ b.after ≠ [])

/-- The loop invariant of concentrate under well-formed events: the task has
not crashed, the bundle map has distinct keys, every stored bundle belongs to
its key and has produced exactly one manifest-level output when and only when
it is consumed, and identities without a bundle have produced no output. -/
def Inv (s : ConcState) : Prop :=
  s.crashed = false ∧
  (s.collect.map Prod.fst).Nodup ∧
  (∀ p ∈ s.collect, goodBundle p.1 p.2 ∧
    outCount p.1 s.outputs = (if p.2.consumed then 1 else 0)) ∧
  (∀ M, lookupB s.collect M = none → outCount M s.outputs = 0)

end Sous

namespace SousRect

/-- SourceVersion of the rectifier package: the repository URL and the semantic
version, compared structurally as SourceVersion.Equal does. -/
structure SourceVersion where
  repoURL : String
  version : String
deriving DecidableEq

/-- Resources of the rectifier package: a resource-name to value map, compared
structurally as Resources.Equal does; modelled as an association list. -/
def Resources : Type :=
  List (String × String)

instance : DecidableEq Resources :=
  inferInstanceAs (DecidableEq (List (String × String)))

/-- Deployment of the rectifier package: source version, instance count,
resources, cluster and the optional explicit request id. -/
structure Deployment where
  sourceVersion : SourceVersion
  numInstances : Int
  resources : Resources
  cluster : String
  requestId : String
deriving DecidableEq

/-- DeploymentPair of the rectifier package: the prior and post deployments of
one modification. -/
structure DeploymentPair where
  prior : Deployment
  post : Deployment
deriving DecidableEq

/-- Modelled from the spec: Deployment.CanonicalName().String(), the canonical
request identity used when no explicit request id is set; the package tests
pin it to the source repository location of the deployment. -/
def canonicalName (d : Deployment) : String :=
  d.sourceVersion.repoURL

/-- computeRequestId from the source: the explicit request id when nonempty,
else the canonical name. -/
def computeRequestId (d : Deployment) : String :=
  if d.requestId.length > 0 then d.requestId else canonicalName d

/-- Modelled from the spec: the RectificationClient ImageName lookup, a
deterministic image name derived from the source version (the package test
client renders the source version; no claim inspects the rendering). -/
def imageName (d : Deployment) : String :=
  d.sourceVersion.repoURL ++ " " ++ d.sourceVersion.version

/-- One side-effecting call the rectifier can issue to the orchestration
client.  deleteRequest is declared by the client interface of the wider
repository and appears here so that its absence from an event's calls is
statable; this rectifier never emits it. -/
inductive RectCall where
  | postRequest (cluster reqID : String) (instanceCount : Int)
  | deploy (cluster reqID image : String) (resources : Resources)
  | scale (cluster reqID : String) (count : Int) (message : String)
  | deleteRequest (cluster reqID message : String)
deriving DecidableEq

/-- changesReq from the source: the instance counts differ. -/
def changesReq (pair : DeploymentPair) : Bool :=
  decide (pair.prior.numInstances ≠ pair.post.numInstances)

/-- changesDep from the source, translated exactly: not (the source versions
are equal and the prior resources equal the prior resources).  The second
conjunct compares the prior resources with themselves, as the source does. -/
def changesDep (pair : DeploymentPair) : Bool :=
  !(decide (pair.prior.sourceVersion = pair.post.sourceVersion) &&
    decide (pair.prior.resources = pair.prior.resources))

/-- The calls rectifyCreates issues for one created deployment: PostRequest
then Deploy.  The fresh random deploy id the source passes to Deploy is not
modelled; no claim inspects it. -/
def rectifyCreate (d : Deployment) : List RectCall :=
  [RectCall.postRequest d.cluster (computeRequestId d) d.numInstances,
   RectCall.deploy d.cluster (computeRequestId d) (imageName d) d.resources]

/-- The calls rectifyDeletes issues for one deleted deployment: a single Scale
to zero instances with the explanatory message. -/
def rectifyDelete (d : Deployment) : List RectCall :=
  [RectCall.scale d.cluster (computeRequestId d) 0 "scaling deleted manifest to zero"]

/-- The calls rectifyModifys issues for one modified pair: Scale with the post
instance count when changesReq holds, then Deploy when changesDep holds, the
two conditions checked independently. -/
def rectifyModify (pair : DeploymentPair) : List RectCall :=
  (if changesReq pair then
    [RectCall.scale pair.post.cluster (computeRequestId pair.post)
      pair.post.numInstances "rectified scaling"]
  else []) ++
  (if changesDep pair then
    [RectCall.deploy pair.post.cluster (computeRequestId pair.prior)
      (imageName pair.post) pair.post.resources]
  else [])

/-- Whether a call is a DeleteRequest. -/
def isDeleteRequest : RectCall → Bool
  | .deleteRequest _ _ _ => true
  | _ => false

/-- Whether a call is a PostRequest. -/
def isPostRequest : RectCall → Bool
  | .postRequest _ _ _ => true
  | _ => false

/-- Whether a call is a Deploy. -/
def isDeploy : RectCall → Bool
  | .deploy _ _ _ _ => true
  | _ => false

/-- Whether a call is a Scale. -/
def isScale : RectCall → Bool
  | .scale _ _ _ _ => true
  | _ => false

/-- A modified pair changing only the resource spec: versions and instance
counts agree, resources differ. -/
def pairResOnly : DeploymentPair :=
  ⟨⟨⟨"github.example/app", "1.0.0"⟩, 1, [("cpus", "1")], "c1", ""⟩,
   ⟨⟨"github.example/app", "1.0.0"⟩, 1, [("cpus", "2")], "c1", ""⟩⟩

/-- A concrete deleted deployment. -/
def delDep : Deployment :=
  ⟨⟨"github.example/app", "1.0.0"⟩, 12, [("cpus", "1")], "cluster", ""⟩

end SousRect

namespace Sous

/-- C5: dispatch emits every resolved ManifestPair on exactly one channel —
the Created channel carrying Post when Prior is absent, the Deleted channel
carrying Prior when Post is absent, the Retained channel when the sides are
structurally equal, the Modified channel otherwise — and a pair with both
sides absent yields the blank-pair error instead of any emission. -/
theorem dispatch_rule (mp : ManifestPair) :
    (dispatch mp = OutEvent.errored ConcErr.blankPair ↔
      mp.Prior = none ∧ mp.Post = none) ∧
    (∀ m, dispatch mp = OutEvent.created m ↔ mp.Prior = none ∧ mp.Post = some m) ∧
    (∀ m, dispatch mp = OutEvent.deleted m ↔ mp.Prior = some m ∧ mp.Post = none) ∧
    (∀ m, dispatch mp = OutEvent.retained m ↔ mp.Prior = some m ∧ mp.Post = some m) ∧
    (∀ mp2, dispatch mp = OutEvent.modified mp2 ↔
      mp2 = mp ∧ ∃ p q, mp.Prior = some p ∧ mp.Post = some q ∧ p ≠ q) := by
  rcases mp with ⟨name, prior, post⟩
  rcases prior with _ | pm <;> rcases post with _ | m <;>
    simp [dispatch]
  by_cases h : pm = m
  · subst h
    simp
  · simp [h]
    refine ⟨fun he => h he.symm, fun mp2 => eq_comm⟩

end Sous

namespace SousRect

/-- C3 (failing input): on a modified pair whose resource spec changed but
whose version and instance count did not, the rectifier issues no call at
all — changesDep compares the prior resources with themselves, so the
resource difference demanded by the claim is never seen. -/
theorem rectifyModify_resource_change_ignored :
    pairResOnly.prior.sourceVersion = pairResOnly.post.sourceVersion ∧
    pairResOnly.prior.resources ≠ pairResOnly.post.resources ∧
    pairResOnly.prior.numInstances = pairResOnly.post.numInstances ∧
    changesDep pairResOnly = false ∧
    rectifyModify pairResOnly = [] := by
  decide

/-- C9 (counterexample): for a concrete deleted deployment the rectifier does
not issue exactly one DeleteRequest call — it issues none. -/
theorem rectifyDelete_no_deleteRequest :
    ¬ ((rectifyDelete delDep).filter isDeleteRequest).length = 1 := by
  decide

/-- C9 (amended): for every deleted deployment event the rectifier issues
exactly one Scale call, scaling the request to zero instances with an
explanatory message, and issues no PostRequest, Deploy or DeleteRequest call
for that event. -/
theorem rectifyDelete_scales_to_zero (d : Deployment) :
    rectifyDelete d =
      [RectCall.scale d.cluster (computeRequestId d) 0
        "scaling deleted manifest to zero"] ∧
    ((rectifyDelete d).filter isScale).length = 1 ∧
    ((rectifyDelete d).filter isPostRequest).length = 0 ∧
    ((rectifyDelete d).filter isDeploy).length = 0 ∧
    ((rectifyDelete d).filter isDeleteRequest).length = 0 := by
  refine ⟨rfl, ?_, ?_, ?_, ?_⟩ <;>
    simp [rectifyDelete, isScale, isPostRequest, isDeploy, isDeleteRequest]

end SousRect

namespace Sous

/-- C2: computeState maps the observed intent and resolution-log entry to a
state by the fixed case order — no matching intended deployment is NotStarted;
an intent failing the id filter is NotVersion; a missing resolution entry is
PendingRequest; an entry with a transient error is ErredRez and with a
non-transient error Failed, which is terminal; a stable diff is Complete; a
coming diff is TasksStarting; anything else is InProgress. -/
theorem computeState_cases (f : ResolveFilter) (si : Option Deployment)
    (cur : Option DiffResolution) :
    ((computeState f si cur).1 = ResolveState.NotStarted ↔ si = none) ∧
    ((computeState f si cur).1 = ResolveState.NotVersion ↔
      ∃ d, si = some d ∧ FilterDeployment f d = false) ∧
    ((computeState f si cur).1 = ResolveState.PendingRequest ↔
      ∃ d, si = some d ∧ FilterDeployment f d = true ∧ cur = none) ∧
    ((computeState f si cur).1 = ResolveState.ErredRez ↔
      ∃ d c e, si = some d ∧ FilterDeployment f d = true ∧ cur = some c ∧
        c.error = some e ∧ IsTransientResolveError e = true) ∧
    ((computeState f si cur).1 = ResolveState.Failed ↔
      ∃ d c e, si = some d ∧ FilterDeployment f d = true ∧ cur = some c ∧
        c.error = some e ∧ IsTransientResolveError e = false) ∧
    ResolveState.terminal ResolveState.Failed = true ∧
    ((computeState f si cur).1 = ResolveState.Complete ↔
      ∃ d c, si = some d ∧ FilterDeployment f d = true ∧ cur = some c ∧
        c.error = none ∧ c.desc = DiffDesc.stableDiff) ∧
    ((computeState f si cur).1 = ResolveState.TasksStarting ↔
      ∃ d c, si = some d ∧ FilterDeployment f d = true ∧ cur = some c ∧
        c.error = none ∧ c.desc = DiffDesc.comingDiff) ∧
    ((computeState f si cur).1 = ResolveState.InProgress ↔
      ∃ d c, si = some d ∧ FilterDeployment f d = true ∧ cur = some c ∧
        c.error = none ∧ c.desc ≠ DiffDesc.stableDiff ∧
        c.desc ≠ DiffDesc.comingDiff) := by
  rcases si with _ | d
  · simp [computeState, ResolveState.terminal]
  · rcases hf : FilterDeployment f d with _ | _
    · simp [computeState, hf, ResolveState.terminal]
    · rcases cur with _ | c
      · simp [computeState, hf, ResolveState.terminal]
      · rcases he : c.error with _ | e
        · rcases hd : c.desc with _ | _ | _ <;>
            simp [computeState, hf, he, hd, ResolveState.terminal]
        · rcases ht : e.transient with _ | _ <;>
            simp [computeState, hf, he, IsTransientResolveError, ht,
              ResolveState.terminal]

end Sous

namespace Sous

/-- Helper: after k consecutive failing polls from a fresh poller the
consecutive-error counter equals k. -/
theorem consecFails_count (cfg : PollerCfg) (e : String) (k : Nat) :
    (consecFails cfg e k).1 = k := by
  induction k with
  | zero => rfl
  | succ k ih =>
      simp only [consecFails, ih, pollOnce]
      split <;> rfl

/-- C4: every failing poll increments the consecutive-error counter; a failing
poll whose incremented counter exceeds 10 returns terminal HTTPFailed while a
counter of 10 or fewer returns non-terminal ErredHTTP, so from a fresh poller
the polls of the first ten consecutive failures return ErredHTTP and the
eleventh returns HTTPFailed; a successful poll resets the counter to zero. -/
theorem pollOnce_http_guard (cfg : PollerCfg) (n : Nat) (e : String)
    (data : StatusData) :
    (pollOnce cfg n (.error e)).1 = n + 1 ∧
    (n + 1 > 10 → (pollOnce cfg n (.error e)).2.stat = ResolveState.HTTPFailed) ∧
    (n + 1 ≤ 10 → (pollOnce cfg n (.error e)).2.stat = ResolveState.ErredHTTP) ∧
    (pollOnce cfg n (.ok data)).1 = 0 ∧
    finished ResolveState.HTTPFailed = true ∧
    finished ResolveState.ErredHTTP = false ∧
    (∀ k, 1 ≤ k → k ≤ 10 →
      (consecFails cfg e k).2.stat = ResolveState.ErredHTTP) ∧
    (consecFails cfg e 11).2.stat = ResolveState.HTTPFailed := by
  refine ⟨?_, ?_, ?_, rfl, rfl, rfl, ?_, ?_⟩
  · simp only [pollOnce]
    split <;> rfl
  · intro h
    simp only [pollOnce]
    rw [if_pos h]
  · intro h
    simp only [pollOnce]
    rw [if_neg (by omega)]
  · intro k hk1 hk10
    rcases k with _ | k
    · omega
    · have h1 : consecFails cfg e (k + 1) =
          pollOnce cfg (consecFails cfg e k).1 (.error e) := rfl
      rw [h1, consecFails_count]
      simp only [pollOnce]
      rw [if_neg (by omega)]
  · have h1 : consecFails cfg e 11 =
        pollOnce cfg (consecFails cfg e 10).1 (.error e) := rfl
    rw [h1, consecFails_count]
    simp only [pollOnce]
    rw [if_pos (by omega)]

/-- C4 witness: concrete polls — the eleventh consecutive failure from a fresh
poller is HTTPFailed, the tenth is ErredHTTP, and a successful poll resets the
counter. -/
theorem pollOnce_http_guard_witness :
    (10 : Nat) + 1 > 10 ∧
    (pollOnce cfgW 10 (.error "boom")).2.stat = ResolveState.HTTPFailed ∧
    (consecFails cfgW "boom" 10).2.stat = ResolveState.ErredHTTP ∧
    (pollOnce cfgW 0 (.ok dataW)).1 = 0 := by
  refine ⟨by decide, (pollOnce_http_guard cfgW 10 "boom" dataW).2.1 (by decide),
    (pollOnce_http_guard cfgW 10 "boom" dataW).2.2.2.2.2.2.1 10 (by decide) (by decide),
    (pollOnce_http_guard cfgW 0 "boom" dataW).2.2.2.1⟩

/-- C10: when the state computed from the in-progress status is NotStarted,
NotVersion or PendingRequest, pollOnce answers with the state computed from
the completed status instead; any other in-progress state is returned
directly. -/
theorem pollOnce_prefers_completed (cfg : PollerCfg) (n : Nat)
    (data : StatusData) :
    (((computeFor cfg (mungeData data).inProgress).1 = ResolveState.NotStarted ∨
      (computeFor cfg (mungeData data).inProgress).1 = ResolveState.NotVersion ∨
      (computeFor cfg (mungeData data).inProgress).1 = ResolveState.PendingRequest) →
        (pollOnce cfg n (.ok data)).2.stat =
          (computeFor cfg (mungeData data).completed).1) ∧
    (¬ ((computeFor cfg (mungeData data).inProgress).1 = ResolveState.NotStarted ∨
      (computeFor cfg (mungeData data).inProgress).1 = ResolveState.NotVersion ∨
      (computeFor cfg (mungeData data).inProgress).1 = ResolveState.PendingRequest) →
        (pollOnce cfg n (.ok data)).2.stat =
          (computeFor cfg (mungeData data).inProgress).1) := by
  constructor
  · intro h
    simp only [pollOnce, pollOnceOk, mkResult]
    rw [if_pos h]
  · intro h
    simp only [pollOnce, pollOnceOk, mkResult]
    rw [if_neg h]

/-- C10 witness: with an empty status payload the in-progress state is
NotStarted, so the poll reports the state computed from the completed
status. -/
theorem pollOnce_prefers_completed_witness :
    ((computeFor cfgW (mungeData dataW).inProgress).1 = ResolveState.NotStarted ∨
      (computeFor cfgW (mungeData dataW).inProgress).1 = ResolveState.NotVersion ∨
      (computeFor cfgW (mungeData dataW).inProgress).1 = ResolveState.PendingRequest) ∧
    (pollOnce cfgW 0 (.ok dataW)).2.stat =
      (computeFor cfgW (mungeData dataW).completed).1 := by
  refine ⟨by decide, (pollOnce_prefers_completed cfgW 0 dataW).1 (by decide)⟩

end Sous

namespace Sous

/-- Helper: dedup of a nonempty list whose members all equal one value is the
singleton of that value. -/
theorem dedup_allsame {α : Type} [DecidableEq α] (a : α) (l : List α) :
    l ≠ [] → (∀ x ∈ l, x = a) → l.dedup = [a] := by
  induction l with
  | nil => intro h _; exact absurd rfl h
  | cons x xs ih =>
      intro _ hall
      have hx : x = a := hall x (List.mem_cons_self x xs)
      rcases Decidable.em (xs = []) with he | he
      · subst he; rw [hx]; simp
      · have hmem : x ∈ xs := by
          rcases List.exists_mem_of_ne_nil xs he with ⟨y, hy⟩
          have h2 : y = a := hall y (List.mem_cons_of_mem _ hy)
          rw [hx, ← h2]
          exact hy
        rw [List.dedup_cons_of_mem hmem]
        exact ih he (fun y hy => hall y (List.mem_cons_of_mem _ hy))

/-- Helper: the putback of a nonempty deployment list agreeing on one
ManifestID is exactly one manifest with that identity. -/
theorem putback_allsame (M : ManifestID) (ds : List Deployment)
    (hne : ds ≠ []) (h : ∀ d ∈ ds, d.manifestID = M) :
    putback ds = [⟨M, putbackDeps ds M⟩] := by
  unfold putback
  have hd : (ds.map (fun d => d.manifestID)).dedup = [M] := by
    apply dedup_allsame
    · intro hm
      apply hne
      simpa using hm
    · intro x hx
      rcases List.mem_map.mp hx with ⟨d, hd2, hd3⟩
      rw [← hd3]
      exact h d hd2
  rw [hd]
  rfl

/-- Helper: resolving a bundle agreeing on one identity with an empty before
side and a nonempty after side yields a Post-only pair named by that
identity. -/
theorem manifestPair_before_empty (M : ManifestID) (db : DeploymentBundle)
    (ha : ∀ d ∈ db.after, d.manifestID = M)
    (hbe : db.before = []) (hae : db.after ≠ []) :
    db.manifestPair = ({ db with consumed := true },
      .ok ⟨M, none, some ⟨M, putbackDeps db.after M⟩⟩) := by
  unfold DeploymentBundle.manifestPair
  rw [hbe, putback_allsame M db.after hae ha]
  rfl

/-- Helper: resolving a bundle agreeing on one identity with a nonempty before
side and an empty after side yields a Prior-only pair named by that
identity. -/
theorem manifestPair_after_empty (M : ManifestID) (db : DeploymentBundle)
    (hb : ∀ d ∈ db.before, d.manifestID = M)
    (hbe : db.before ≠ []) (hae : db.after = []) :
    db.manifestPair = ({ db with consumed := true },
      .ok ⟨M, some ⟨M, putbackDeps db.before M⟩, none⟩) := by
  unfold DeploymentBundle.manifestPair
  rw [hae, putback_allsame M db.before hbe hb]
  rfl

/-- Helper: resolving a bundle agreeing on one identity with both sides
nonempty yields a two-sided pair named by that identity. -/
theorem manifestPair_both (M : ManifestID) (db : DeploymentBundle)
    (hb : ∀ d ∈ db.before, d.manifestID = M)
    (ha : ∀ d ∈ db.after, d.manifestID = M)
    (hbe : db.before ≠ []) (hae : db.after ≠ []) :
    db.manifestPair = ({ db with consumed := true },
      .ok ⟨M, some ⟨M, putbackDeps db.before M⟩,
        some ⟨M, putbackDeps db.after M⟩⟩) := by
  unfold DeploymentBundle.manifestPair
  rw [putback_allsame M db.before hbe hb, putback_allsame M db.after hae ha]
  rfl

end Sous

namespace Sous

/-- C7: resolving a complete bundle — every contribution carrying the bundle's
one ManifestID, at least one contribution present — produces exactly one
ManifestPair, and its name is the Post manifest's ID when Post is present and
the Prior manifest's ID otherwise. -/
theorem manifestPair_name_rule (db : DeploymentBundle) (M : ManifestID)
    (hb : ∀ d ∈ db.before, d.manifestID = M)
    (ha : ∀ d ∈ db.after, d.manifestID = M)
    (hne : db.before ≠ [] ∨ db.after ≠ []) :
    ∃ mp, (db.manifestPair).2 = Except.ok mp ∧
      ((∃ pm, mp.Post = some pm ∧ mp.name = pm.id) ∨
        (mp.Post = none ∧ ∃ prm, mp.Prior = some prm ∧ mp.name = prm.id)) := by
  rcases Decidable.em (db.before = []) with hbe | hbe <;>
    rcases Decidable.em (db.after = []) with hae | hae
  · rcases hne with h | h <;> contradiction
  · refine ⟨⟨M, none, some ⟨M, putbackDeps db.after M⟩⟩, ?_, ?_⟩
    · rw [manifestPair_before_empty M db ha hbe hae]
    · exact Or.inl ⟨⟨M, putbackDeps db.after M⟩, rfl, rfl⟩
  · refine ⟨⟨M, some ⟨M, putbackDeps db.before M⟩, none⟩, ?_, ?_⟩
    · rw [manifestPair_after_empty M db hb hbe hae]
    · exact Or.inr ⟨rfl, ⟨M, putbackDeps db.before M⟩, rfl, rfl⟩
  · refine ⟨⟨M, some ⟨M, putbackDeps db.before M⟩,
      some ⟨M, putbackDeps db.after M⟩⟩, ?_, ?_⟩
    · rw [manifestPair_both M db hb ha hbe hae]
    · exact Or.inl ⟨⟨M, putbackDeps db.after M⟩, rfl, rfl⟩

/-- C7 witness: a concrete two-sided bundle for midW resolves to a pair named
by its Post manifest's ID. -/
theorem manifestPair_name_rule_witness :
    (∀ d ∈ ([depW1] : List Deployment), d.manifestID = midW) ∧
    (∃ mp, ((⟨false, [depW1], [depW1b]⟩ : DeploymentBundle).manifestPair).2 =
        Except.ok mp ∧
      ((∃ pm, mp.Post = some pm ∧ mp.name = pm.id) ∨
        (mp.Post = none ∧ ∃ prm, mp.Prior = some prm ∧ mp.name = prm.id))) := by
  refine ⟨by decide, manifestPair_name_rule ⟨false, [depW1], [depW1b]⟩ midW
    (by decide) (by decide) (by decide)⟩

/-- C8 (counterexample): manifestPair does not fail on an already consumed
bundle — resolving a concrete one-deployment bundle marks it consumed, and a
second direct resolve of the consumed bundle returns another ManifestPair
rather than an error. -/
theorem manifestPair_double_resolve :
    ((((⟨false, [depW1], []⟩ : DeploymentBundle).manifestPair).1).consumed = true) ∧
    ((((⟨false, [depW1], []⟩ : DeploymentBundle).manifestPair).1).manifestPair).2 =
      Except.ok ⟨midW, some ⟨midW, [("c1", specW1)]⟩, none⟩ := by
  exact ⟨rfl, rfl⟩

/-- C8 (amended): resolve marks the bundle consumed; it does not itself check
the flag — double resolution is instead prevented by its callers: add fails
with the consumed error on a consumed bundle, and the shutdown flush skips
consumed bundles. -/
theorem manifestPair_consumed_discipline (db : DeploymentBundle) :
    ((db.manifestPair).1).consumed = true ∧
    (∀ pair, db.consumed = true → db.add pair = (db, some AddErr.consumed)) ∧
    (∀ mid rest, db.consumed = true →
      flushList ((mid, db) :: rest) = flushList rest) := by
  refine ⟨?_, ?_, ?_⟩
  · unfold DeploymentBundle.manifestPair
    rcases h1 : Only (putback db.before) with e1 | po1
    · rfl
    · rcases h2 : Only (putback db.after) with e2 | po2
      · rfl
      · rcases po2 with _ | pm
        · rcases po1 with _ | prm <;> rfl
        · rfl
  · intro pair h
    simp [DeploymentBundle.add, h]
  · intro mid rest h
    simp [flushList, h]

/-- C8 witness: the consumed-bundle guards at a concrete consumed bundle — add
fails with the consumed error and the flush skips the bundle. -/
theorem manifestPair_consumed_discipline_witness :
    (⟨true, [depW1], []⟩ : DeploymentBundle).consumed = true ∧
    ((⟨true, [depW1], []⟩ : DeploymentBundle).add ⟨some depW2, none⟩ =
      (⟨true, [depW1], []⟩, some AddErr.consumed)) ∧
    flushList [(midW, (⟨true, [depW1], []⟩ : DeploymentBundle))] = flushList [] := by
  refine ⟨rfl,
    (manifestPair_consumed_discipline ⟨true, [depW1], []⟩).2.1 ⟨some depW2, none⟩ rfl,
    (manifestPair_consumed_discipline ⟨true, [depW1], []⟩).2.2 midW [] rfl⟩

end Sous

namespace Sous

/-- Helper: a well-formed pair passes the cluster validation of add. -/
theorem wfPair_clusterOf (p : DeployablePair) (hwf : wfPairB p = true) :
    ∃ cl, clusterOf p = Except.ok cl := by
  rcases hp : p.Prior with _ | d1 <;> rcases hq : p.Post with _ | d2 <;>
    rw [wfPairB, hp, hq] at hwf <;> simp at hwf
  · exact ⟨d2.clusterName, by simp [clusterOf, hp, hq, hwf]⟩
  · exact ⟨d1.clusterName, by simp [clusterOf, hp, hq, hwf]⟩
  · refine ⟨d1.clusterName, ?_⟩
    simp [clusterOf, hp, hq, hwf.1.2, hwf.2]
    exact hwf.1.2 ▸ hwf.2

/-- C6: in a bundle whose contributions all carry the bundle's one ManifestID,
adding a well-formed pair whose before side (respectively after side) names a
cluster already occupied on that side fails with the corresponding collision
error, in every arrival order, and every previously stored deployment is still
stored unchanged after the failed add. -/
theorem add_collision_rule (db : DeploymentBundle) (M : ManifestID)
    (pair : DeployablePair)
    (hcons : db.consumed = false)
    (hb : ∀ d ∈ db.before, d.manifestID = M)
    (ha : ∀ d ∈ db.after, d.manifestID = M)
    (hpm : ∀ d, pair.Prior = some d → d.manifestID = M)
    (hqm : ∀ d, pair.Post = some d → d.manifestID = M)
    (hwf : wfPairB pair = true) :
    (∀ d, pair.Prior = some d →
      (∃ d0 ∈ db.before, d0.clusterName = d.clusterName) →
      (db.add pair).2 = some AddErr.collisionBefore ∧ (db.add pair).1 = db) ∧
    (∀ d, pair.Post = some d →
      (∀ dp, pair.Prior = some dp →
        ∀ d0 ∈ db.before, d0.clusterName ≠ dp.clusterName) →
      (∃ d0 ∈ db.after, d0.clusterName = d.clusterName) →
      (db.add pair).2 = some AddErr.collisionAfter ∧
        (∀ d0 ∈ db.before, d0 ∈ (db.add pair).1.before) ∧
        (db.add pair).1.after = db.after) := by
  obtain ⟨cl, hcl⟩ := wfPair_clusterOf pair hwf
  constructor
  · rintro d hd ⟨d0, hd0, hdc⟩
    have hidm : d0.ID = d.ID := by
      simp [Deployment.ID, hb d0 hd0, hpm d hd, hdc]
    have hany : (db.before.any (fun e => e.ID = d.ID)) = true := by
      simp only [List.any_eq_true]
      exact ⟨d0, hd0, by simp [hidm]⟩
    simp [DeploymentBundle.add, hcons, hcl, hd, addPrior, depsAdd, hany]
  · rintro d hd hnoc ⟨d0, hd0, hdc⟩
    have hidm : d0.ID = d.ID := by
      simp [Deployment.ID, ha d0 hd0, hqm d hd, hdc]
    rcases hp : pair.Prior with _ | dp
    · have hany : (db.after.any (fun e => e.ID = d.ID)) = true := by
        simp only [List.any_eq_true]
        exact ⟨d0, hd0, by simp [hidm]⟩
      simp [DeploymentBundle.add, hcons, hcl, hp, hd, addPrior, addPost,
        depsAdd, hany]
    · have hany2 : (db.before.any (fun e => e.ID = dp.ID)) = false := by
        rw [Bool.eq_false_iff]
        intro hcontra
        rcases List.any_eq_true.mp hcontra with ⟨e, he, hid⟩
        have hee : e.ID = dp.ID := by simpa using hid
        have hcc : e.clusterName = dp.clusterName :=
          congrArg DeploymentID.cluster hee
        exact hnoc dp hp e he hcc
      have hany : (db.after.any (fun e => e.ID = d.ID)) = true := by
        simp only [List.any_eq_true]
        exact ⟨d0, hd0, by simp [hidm]⟩
      refine ⟨?_, ?_, ?_⟩ <;>
        simp [DeploymentBundle.add, hcons, hcl, hp, hd, addPrior, addPost,
          depsAdd, hany2, hany]
      intro d1 hd1
      exact Or.inl hd1

/-- C6 witness: a concrete before-side cluster collision fails with the
collision error and leaves the bundle unchanged. -/
theorem add_collision_rule_witness :
    (∃ d0 ∈ ([depW1] : List Deployment), d0.clusterName = depW1b.clusterName) ∧
    ((⟨false, [depW1], []⟩ : DeploymentBundle).add ⟨some depW1b, none⟩).2 =
      some AddErr.collisionBefore ∧
    ((⟨false, [depW1], []⟩ : DeploymentBundle).add ⟨some depW1b, none⟩).1 =
      ⟨false, [depW1], []⟩ := by
  refine ⟨by decide, ?_⟩
  exact (add_collision_rule ⟨false, [depW1], []⟩ midW ⟨some depW1b, none⟩ rfl
    (by decide) (by decide)
    (fun d hd => by injection hd with h; exact h ▸ (by decide))
    (fun d hd => by cases hd)
    (by decide)).1 depW1b rfl ⟨depW1, by decide, by decide⟩

end Sous

namespace Sous

/-- Helper: resolving a bundle whose contributions all carry one ManifestID
and which holds at least one contribution emits exactly one manifest-level
output event, and that event is for that ManifestID and no other. -/
theorem resolveB_good (M : ManifestID) (db : DeploymentBundle)
    (hb : ∀ d ∈ db.before, d.manifestID = M)
    (ha : ∀ d ∈ db.after, d.manifestID = M)
    (hne : db.before ≠ [] ∨ db.after ≠ []) :
    ∃ out, resolveB db = ({ db with consumed := true }, [out], false) ∧
      outFor M out = true ∧ ∀ M2, M2 ≠ M → outFor M2 out = false := by
  rcases Decidable.em (db.before = []) with hbe | hbe <;>
    rcases Decidable.em (db.after = []) with hae | hae
  · rcases hne with h | h <;> contradiction
  · refine ⟨.created ⟨M, putbackDeps db.after M⟩, ?_, ?_, ?_⟩
    · unfold resolveB
      rw [manifestPair_before_empty M db ha hbe hae]
      rfl
    · simp [outFor]
    · intro M2 h2
      simp [outFor]
      exact fun h => absurd h.symm h2
  · refine ⟨.deleted ⟨M, putbackDeps db.before M⟩, ?_, ?_, ?_⟩
    · unfold resolveB
      rw [manifestPair_after_empty M db hb hbe hae]
      rfl
    · simp [outFor]
    · intro M2 h2
      simp [outFor]
      exact fun h => absurd h.symm h2
  · rcases Decidable.em ((⟨M, putbackDeps db.before M⟩ : Manifest) =
      ⟨M, putbackDeps db.after M⟩) with heq | heq
    · refine ⟨.retained ⟨M, putbackDeps db.after M⟩, ?_, ?_, ?_⟩
      · unfold resolveB
        rw [manifestPair_both M db hb ha hbe hae]
        simp [dispatch, heq]
      · simp [outFor]
      · intro M2 h2
        simp [outFor]
        exact fun h => absurd h.symm h2
    · refine ⟨.modified ⟨M, some ⟨M, putbackDeps db.before M⟩,
        some ⟨M, putbackDeps db.after M⟩⟩, ?_, ?_, ?_⟩
      · unfold resolveB
        rw [manifestPair_both M db hb ha hbe hae]
        simp [dispatch, heq]
      · simp [outFor]
      · intro M2 h2
        simp [outFor]
        exact fun h => absurd h.symm h2

end Sous

namespace Sous

/-- Helper: looking up the freshly updated key finds the new bundle. -/
theorem lookupB_updateB_self (l : List (ManifestID × DeploymentBundle))
    (mid : ManifestID) (b : DeploymentBundle) :
    lookupB (updateB l mid b) mid = some b := by
  induction l with
  | nil => simp [updateB, lookupB]
  | cons p rest ih =>
      rcases p with ⟨k, v⟩
      rcases Decidable.em (k = mid) with h | h
      · simp [updateB, lookupB, h]
      · simp [updateB, lookupB, h, ih]

/-- Helper: updating one key leaves every other lookup unchanged. -/
theorem lookupB_updateB_other (l : List (ManifestID × DeploymentBundle))
    (mid M : ManifestID) (b : DeploymentBundle) (hne : M ≠ mid) :
    lookupB (updateB l mid b) M = lookupB l M := by
  induction l with
  | nil =>
      simp only [updateB, lookupB]
      rw [if_neg (fun h2 => hne h2.symm)]
  | cons p rest ih =>
      rcases p with ⟨k, v⟩
      simp only [updateB, lookupB]
      rcases Decidable.em (k = mid) with h | h
      · rw [if_pos h]
        simp only [lookupB]
        rw [if_neg (fun h2 => hne h2.symm),
          if_neg (fun h2 => hne ((h.symm.trans h2).symm))]
      · rw [if_neg h]
        simp only [lookupB]
        rcases Decidable.em (k = M) with h2 | h2
        · rw [if_pos h2, if_pos h2]
        · rw [if_neg h2, if_neg h2, ih]

/-- Helper: a key is absent from the map exactly when its lookup fails. -/
theorem lookupB_none_iff (l : List (ManifestID × DeploymentBundle))
    (M : ManifestID) :
    lookupB l M = none ↔ M ∉ l.map Prod.fst := by
  induction l with
  | nil => simp [lookupB]
  | cons p rest ih =>
      rcases p with ⟨k, v⟩
      simp only [lookupB, List.map_cons, List.mem_cons]
      rcases Decidable.em (k = M) with h | h
      · rw [if_pos h]
        simp [h]
      · rw [if_neg h]
        rw [ih]
        constructor
        · intro hnm hor
          rcases hor with h2 | h2
          · exact h h2.symm
          · exact hnm h2
        · intro hno h2
          exact hno (Or.inr h2)

/-- Helper: a successful lookup is a membership with that key. -/
theorem lookupB_some_mem (l : List (ManifestID × DeploymentBundle))
    (M : ManifestID) (b : DeploymentBundle) (h : lookupB l M = some b) :
    (M, b) ∈ l := by
  induction l with
  | nil => simp [lookupB] at h
  | cons p rest ih =>
      rcases p with ⟨k, v⟩
      rcases Decidable.em (k = M) with h2 | h2
      · subst h2
        simp [lookupB] at h
        simp [h]
      · simp [lookupB, h2] at h
        exact List.mem_cons_of_mem _ (ih h)

/-- Helper: updating a present key keeps the key list; updating an absent key
appends it. -/
theorem keys_updateB (l : List (ManifestID × DeploymentBundle))
    (mid : ManifestID) (b : DeploymentBundle) :
    (updateB l mid b).map Prod.fst =
      (if mid ∈ l.map Prod.fst then l.map Prod.fst
        else l.map Prod.fst ++ [mid]) := by
  induction l with
  | nil => simp [updateB]
  | cons p rest ih =>
      rcases p with ⟨k, v⟩
      simp only [updateB, List.map_cons]
      rcases Decidable.em (k = mid) with h | h
      · rw [if_pos h, if_pos (List.mem_cons.mpr (Or.inl h.symm))]
        simp only [List.map_cons]
        rw [← h]
      · rw [if_neg h]
        simp only [List.map_cons]
        rw [ih]
        rcases Decidable.em (mid ∈ rest.map Prod.fst) with h2 | h2
        · rw [if_pos h2, if_pos (List.mem_cons.mpr (Or.inr h2))]
        · rw [if_neg h2, if_neg ?hcond]
          case hcond =>
            intro hc
            rcases List.mem_cons.mp hc with h3 | h3
            · exact h h3.symm
            · exact h2 h3
          simp

/-- Helper: membership in an updated map with distinct keys — every entry is
the new binding or an old entry under a different key. -/
theorem mem_updateB (l : List (ManifestID × DeploymentBundle))
    (mid : ManifestID) (b : DeploymentBundle)
    (hnd : (l.map Prod.fst).Nodup)
    (p : ManifestID × DeploymentBundle) (hp : p ∈ updateB l mid b) :
    p = (mid, b) ∨ (p ∈ l ∧ p.1 ≠ mid) := by
  induction l with
  | nil =>
      simp [updateB] at hp
      exact Or.inl hp
  | cons q rest ih =>
      rcases q with ⟨k, v⟩
      rw [List.map_cons, List.nodup_cons] at hnd
      simp only [updateB] at hp
      rcases Decidable.em (k = mid) with h | h
      · rw [if_pos h] at hp
        rcases List.mem_cons.mp hp with hp | hp
        · exact Or.inl hp
        · refine Or.inr ⟨List.mem_cons_of_mem _ hp, ?_⟩
          intro h2
          apply hnd.1
          have hm := List.mem_map_of_mem Prod.fst hp
          rw [h.trans h2.symm]
          exact hm
      · rw [if_neg h] at hp
        rcases List.mem_cons.mp hp with hp | hp
        · refine Or.inr ⟨?_, ?_⟩
          · rw [hp]
            exact List.mem_cons_self _ _
          · rw [hp]
            exact h
        · rcases ih hnd.2 hp with h2 | h2
          · exact Or.inl h2
          · exact Or.inr ⟨List.mem_cons_of_mem _ h2.1, h2.2⟩

end Sous

namespace Sous

/-- Helper: add never changes the consumed flag and only appends deployments
coming from the pair itself to the two sides. -/
theorem add_state (db : DeploymentBundle) (pair : DeployablePair) :
    ∃ bef2 aft2, (db.add pair).1 =
        { consumed := db.consumed, before := db.before ++ bef2,
          after := db.after ++ aft2 } ∧
      (∀ x ∈ bef2, pair.Prior = some x) ∧ (∀ x ∈ aft2, pair.Post = some x) := by
  rcases db with ⟨dbc, dbb, dba⟩
  cases dbc
  · rcases hcl : clusterOf pair with e | cl
    · refine ⟨[], [], ?_, by simp, by simp⟩
      simp [DeploymentBundle.add, hcl]
    · rcases hp : pair.Prior with _ | dpr
      · rcases hq : pair.Post with _ | dpo
        · refine ⟨[], [], ?_, by simp, by simp⟩
          simp [DeploymentBundle.add, hcl, hp, hq, addPrior, addPost]
        · cases h2 : (dba.any (fun e => e.ID = dpo.ID))
          · refine ⟨[], [dpo], ?_, by simp, ?_⟩
            · simp [DeploymentBundle.add, hcl, hp, hq, addPrior, addPost,
                depsAdd, h2]
            · intro x hx
              rw [List.mem_singleton] at hx
              rw [hx]
          · refine ⟨[], [], ?_, by simp, by simp⟩
            simp [DeploymentBundle.add, hcl, hp, hq, addPrior, addPost,
              depsAdd, h2]
      · cases h1 : (dbb.any (fun e => e.ID = dpr.ID))
        · rcases hq : pair.Post with _ | dpo
          · refine ⟨[dpr], [], ?_, ?_, by simp⟩
            · simp [DeploymentBundle.add, hcl, hp, hq, addPrior, addPost,
                depsAdd, h1]
            · intro x hx
              rw [List.mem_singleton] at hx
              rw [hx]
          · cases h2 : (dba.any (fun e => e.ID = dpo.ID))
            · refine ⟨[dpr], [dpo], ?_, ?_, ?_⟩
              · simp [DeploymentBundle.add, hcl, hp, hq, addPrior, addPost,
                  depsAdd, h1, h2]
              · intro x hx
                rw [List.mem_singleton] at hx
                rw [hx]
              · intro x hx
                rw [List.mem_singleton] at hx
                rw [hx]
            · refine ⟨[dpr], [], ?_, ?_, by simp⟩
              · simp [DeploymentBundle.add, hcl, hp, hq, addPrior, addPost,
                  depsAdd, h1, h2]
              · intro x hx
                rw [List.mem_singleton] at hx
                rw [hx]
        · refine ⟨[], [], ?_, by simp, by simp⟩
          simp [DeploymentBundle.add, hcl, hp, addPrior, depsAdd, h1]
  · refine ⟨[], [], ?_, by simp, by simp⟩
    simp [DeploymentBundle.add]

/-- Helper: a successful add happened on an unconsumed bundle and put each
present side of the pair into the matching side of the bundle. -/
theorem add_success (db : DeploymentBundle) (pair : DeployablePair)
    (h : (db.add pair).2 = none) :
    db.consumed = false ∧
    (∀ d, pair.Prior = some d → d ∈ ((db.add pair).1).before) ∧
    (∀ d, pair.Post = some d → d ∈ ((db.add pair).1).after) := by
  rcases db with ⟨dbc, dbb, dba⟩
  cases dbc
  · rcases hcl : clusterOf pair with e | cl
    · simp [DeploymentBundle.add, hcl] at h
    · rcases hp : pair.Prior with _ | dpr
      · rcases hq : pair.Post with _ | dpo
        · exact ⟨rfl, fun d hd => Option.noConfusion hd,
            fun d hd => Option.noConfusion hd⟩
        · cases h2 : (dba.any (fun e => e.ID = dpo.ID))
          · refine ⟨rfl, fun d hd => Option.noConfusion hd, fun d hd => ?_⟩
            injection hd with hd2
            subst hd2
            simp [DeploymentBundle.add, hcl, hp, hq, addPrior, addPost,
              depsAdd, h2]
          · rw [show (DeploymentBundle.add ⟨false, dbb, dba⟩ pair).2 =
                some AddErr.collisionAfter from by
              simp [DeploymentBundle.add, hcl, hp, hq, addPrior, addPost,
                depsAdd, h2]] at h
            cases h
      · cases h1 : (dbb.any (fun e => e.ID = dpr.ID))
        · rcases hq : pair.Post with _ | dpo
          · refine ⟨rfl, fun d hd => ?_, fun d hd => Option.noConfusion hd⟩
            injection hd with hd2
            subst hd2
            simp [DeploymentBundle.add, hcl, hp, hq, addPrior, addPost,
              depsAdd, h1]
          · cases h2 : (dba.any (fun e => e.ID = dpo.ID))
            · refine ⟨rfl, fun d hd => ?_, fun d hd => ?_⟩
              · injection hd with hd2
                subst hd2
                simp [DeploymentBundle.add, hcl, hp, hq, addPrior, addPost,
                  depsAdd, h1, h2]
              · injection hd with hd2
                subst hd2
                simp [DeploymentBundle.add, hcl, hp, hq, addPrior, addPost,
                  depsAdd, h1, h2]
            · rw [show (DeploymentBundle.add ⟨false, dbb, dba⟩ pair).2 =
                  some AddErr.collisionAfter from by
                simp [DeploymentBundle.add, hcl, hp, hq, addPrior, addPost,
                  depsAdd, h1, h2]] at h
              cases h
        · rw [show (DeploymentBundle.add ⟨false, dbb, dba⟩ pair).2 =
              some AddErr.collisionBefore from by
            simp [DeploymentBundle.add, hcl, hp, addPrior, depsAdd, h1]] at h
          cases h
  · rw [show (DeploymentBundle.add ⟨true, dbb, dba⟩ pair).2 =
        some AddErr.consumed from rfl] at h
    cases h

end Sous

namespace Sous

/-- Helper: outCount distributes over append. -/
theorem outCount_append (M : ManifestID) (l1 l2 : List OutEvent) :
    outCount M (l1 ++ l2) = outCount M l1 + outCount M l2 := by
  simp [outCount, List.filter_append]

/-- Helper: an error event is never a manifest-level output. -/
theorem outCount_errored (M : ManifestID) (e : ConcErr) :
    outCount M [OutEvent.errored e] = 0 := rfl

/-- Helper: the count of a singleton output. -/
theorem outCount_single (M : ManifestID) (out : OutEvent) :
    outCount M [out] = (if outFor M out then 1 else 0) := by
  cases h : outFor M out <;> simp [outCount, List.filter, h]

/-- Helper: what well-formedness gives about the sides of an event keyed to a
ManifestID: both present sides carry that identity and a nonempty cluster
name. -/
theorem wf_facts (e : InEvent) (mid : ManifestID)
    (hwf : wfEvent e = true) (hk : keyOf e = some mid) :
    (∀ d, e.pair.Prior = some d → d.manifestID = mid ∧ d.clusterName ≠ "") ∧
    (∀ d, e.pair.Post = some d → d.manifestID = mid ∧ d.clusterName ≠ "") := by
  rcases e with ⟨tag, pair⟩
  rcases pair with ⟨prior, post⟩
  rw [wfEvent] at hwf
  rcases Bool.and_eq_true_iff.mp hwf with ⟨hw, _⟩
  rcases tag <;> rcases hp : prior with _ | d1 <;> rcases hq : post with _ | d2 <;>
    rw [keyOf] at hk <;> simp [hp, hq] at hk ⊢ <;>
    rw [wfPairB] at hw <;> simp [hp, hq] at hw
  all_goals first
  | exact ⟨hk, hw⟩
  | exact ⟨⟨hw.1.1.trans hk, hw.2⟩, hk, fun hc => hw.2 (hw.1.2.trans hc)⟩
  | exact ⟨⟨hk, hw.2⟩, hw.1.1.symm.trans hk, fun hc => hw.2 (hw.1.2.trans hc)⟩

end Sous

namespace Sous

/-- Helper: updating one bundle and appending outputs that stay consistent
with the counts preserves the loop invariant. -/
theorem inv_update (s : ConcState) (mid : ManifestID) (bNew : DeploymentBundle)
    (extra : List OutEvent) (hs : Inv s)
    (hgood : goodBundle mid bNew)
    (hmidcount : outCount mid s.outputs + outCount mid extra =
      (if bNew.consumed then 1 else 0))
    (hother : ∀ M2, M2 ≠ mid → outCount M2 extra = 0) :
    Inv ⟨updateB s.collect mid bNew, s.outputs ++ extra, false⟩ := by
  obtain ⟨hcr, hnd, hmem, habs⟩ := hs
  refine ⟨rfl, ?_, ?_, ?_⟩
  · rw [keys_updateB]
    rcases Decidable.em (mid ∈ s.collect.map Prod.fst) with h | h
    · rw [if_pos h]
      exact hnd
    · rw [if_neg h]
      rw [List.nodup_append]
      refine ⟨hnd, List.nodup_singleton _, ?_⟩
      intro a ha hb
      exact h ((List.mem_singleton.mp hb) ▸ ha)
  · intro p hp
    rcases mem_updateB s.collect mid bNew hnd p hp with h | ⟨hpold, hpne⟩
    · rw [h]
      refine ⟨hgood, ?_⟩
      rw [outCount_append]
      exact hmidcount
    · have h2 := hmem p hpold
      refine ⟨h2.1, ?_⟩
      rw [outCount_append, hother p.1 hpne, Nat.add_zero]
      exact h2.2
  · intro M hM
    have hMne : M ≠ mid := by
      intro hc
      rw [hc, lookupB_updateB_self] at hM
      cases hM
    rw [lookupB_updateB_other s.collect mid M bNew hMne] at hM
    rw [outCount_append, habs M hM, hother M hMne]

/-- Helper: adding a well-formed pair to a fresh bundle always succeeds. -/
theorem add_fresh_success (p : DeployablePair) (hwf : wfPairB p = true) :
    (newDepBundle.add p).2 = none := by
  obtain ⟨cl, hcl⟩ := wfPair_clusterOf p hwf
  rcases hp : p.Prior with _ | d1 <;> rcases hq : p.Post with _ | d2
  · rw [clusterOf, hp, hq] at hcl
    cases hcl
  all_goals
    simp [newDepBundle, DeploymentBundle.add, hcl, hp, hq, addPrior, addPost,
      depsAdd]

/-- Helper: an event with a key has a deployment on at least one side. -/
theorem keyOf_side (e : InEvent) (mid : ManifestID) (hk : keyOf e = some mid) :
    (∃ d, e.pair.Prior = some d) ∨ (∃ d, e.pair.Post = some d) := by
  rcases e with ⟨tag, ⟨prior, post⟩⟩
  rcases tag <;> simp only [keyOf] at hk
  · rcases hq : post with _ | d
    · rw [hq] at hk
      cases hk
    · exact Or.inr ⟨d, rfl⟩
  · rcases hp : prior with _ | d
    · rw [hp] at hk
      cases hk
    · exact Or.inl ⟨d, rfl⟩
  · rcases hq : post with _ | d
    · rw [hq] at hk
      cases hk
    · exact Or.inr ⟨d, rfl⟩
  · rcases hp : prior with _ | d
    · rw [hp] at hk
      cases hk
    · exact Or.inl ⟨d, rfl⟩

end Sous

namespace Sous

/-- Helper: add, stated on the destructured result — consumed flag preserved,
sides only grow and only by the pair's own deployments, and a successful add
put each present side into the bundle. -/
theorem add_props (b0 b1 : DeploymentBundle) (oerr : Option AddErr)
    (pair : DeployablePair) (hadd : b0.add pair = (b1, oerr)) :
    b1.consumed = b0.consumed ∧
    (∀ x ∈ b1.before, x ∈ b0.before ∨ pair.Prior = some x) ∧
    (∀ x ∈ b1.after, x ∈ b0.after ∨ pair.Post = some x) ∧
    (∀ x ∈ b0.before, x ∈ b1.before) ∧
    (∀ x ∈ b0.after, x ∈ b1.after) ∧
    (oerr = none → b0.consumed = false ∧
      (∀ d, pair.Prior = some d → d ∈ b1.before) ∧
      (∀ d, pair.Post = some d → d ∈ b1.after)) := by
  obtain ⟨bef2, aft2, hstate, hbef2, haft2⟩ := add_state b0 pair
  rw [hadd] at hstate
  have hstate2 : b1 = ⟨b0.consumed, b0.before ++ bef2, b0.after ++ aft2⟩ :=
    hstate
  refine ⟨by rw [hstate2], ?_, ?_, ?_, ?_, ?_⟩
  · intro x hx
    rw [hstate2] at hx
    rcases List.mem_append.mp hx with h | h
    · exact Or.inl h
    · exact Or.inr (hbef2 x h)
  · intro x hx
    rw [hstate2] at hx
    rcases List.mem_append.mp hx with h | h
    · exact Or.inl h
    · exact Or.inr (haft2 x h)
  · intro x hx
    rw [hstate2]
    exact List.mem_append.mpr (Or.inl hx)
  · intro x hx
    rw [hstate2]
    exact List.mem_append.mpr (Or.inl hx)
  · intro hoe
    have hsc := add_success b0 pair (by rw [hadd, hoe])
    rw [hadd] at hsc
    exact ⟨hsc.1, fun d hd => hsc.2.1 d hd, fun d hd => hsc.2.2 d hd⟩

/-- Helper: an update cannot make an absent key present in reverse — if the
key is absent after the update it was absent before. -/
theorem lookup_update_mono (l : List (ManifestID × DeploymentBundle))
    (mid M : ManifestID) (b : DeploymentBundle)
    (h : lookupB (updateB l mid b) M = none) : lookupB l M = none := by
  rcases Decidable.em (M = mid) with hq | hq
  · rw [hq, lookupB_updateB_self] at h
    cases h
  · rw [lookupB_updateB_other l mid M b hq] at h
    exact h

end Sous

namespace Sous

/-- Helper: one loop iteration on a well-formed event preserves the
invariant, never drops a key, and makes the event's key present. -/
theorem stepEv_inv (defs : Defs) (s : ConcState) (e : InEvent)
    (hs : Inv s) (he : wfEvent e = true) :
    Inv (stepEv defs s e) ∧
    (∀ M, lookupB (stepEv defs s e).collect M = none →
      lookupB s.collect M = none) ∧
    (∀ M, keyOf e = some M → lookupB (stepEv defs s e).collect M ≠ none) := by
  have hcr : s.crashed = false := hs.1
  rcases hk : keyOf e with _ | mid
  · rw [wfEvent, hk] at he
    simp at he
  · have hwff := wf_facts e mid he hk
    have hwp : wfPairB e.pair = true := by
      rw [wfEvent] at he
      exact (Bool.and_eq_true_iff.mp he).1
    rcases hb0 : lookupB s.collect mid with _ | bOld
    · -- fresh bundle
      rcases hadd : newDepBundle.add e.pair with ⟨b1, oerr⟩
      have hoe : oerr = none := by
        have h2 := add_fresh_success e.pair hwp
        rw [hadd] at h2
        exact h2
      subst hoe
      obtain ⟨hcons, helemb, helema, _, _, hsucc⟩ :=
        add_props newDepBundle b1 none e.pair hadd
      have hsucc2 := hsucc rfl
      have hconsf : b1.consumed = false := hcons
      have hzero : outCount mid s.outputs = 0 := hs.2.2.2 mid hb0
      have hgb1 : goodBundle mid b1 := by
        refine ⟨?_, ?_, ?_⟩
        · intro d hd
          rcases helemb d hd with h | h
          · exact absurd h (List.not_mem_nil d)
          · exact hwff.1 d h
        · intro d hd
          rcases helema d hd with h | h
          · exact absurd h (List.not_mem_nil d)
          · exact hwff.2 d h
        · rcases keyOf_side e mid hk with ⟨d, hd⟩ | ⟨d, hd⟩
          · exact Or.inl (List.ne_nil_of_mem (hsucc2.2.1 d hd))
          · exact Or.inr (List.ne_nil_of_mem (hsucc2.2.2 d hd))
      rcases Decidable.em (b1.clusters.length = defs.clusters.length) with hlen | hlen
      · obtain ⟨out, hrese, houtm, houto⟩ := resolveB_good mid b1
          (fun d hd => (hgb1.1 d hd).1) (fun d hd => (hgb1.2.1 d hd).1) hgb1.2.2
        have hst : stepEv defs s e =
            ⟨updateB s.collect mid { b1 with consumed := true },
              s.outputs ++ [out], false⟩ := by
          simp [stepEv, hcr, hk, hb0, hadd, hlen, hrese]
        rw [hst]
        refine ⟨inv_update s mid _ [out] hs hgb1 ?_ ?_, ?_, ?_⟩
        · rw [hzero, outCount_single, houtm]
          simp
        · intro M2 hne2
          rw [outCount_single, houto M2 hne2]
          simp
        · intro M hM
          exact lookup_update_mono _ _ _ _ hM
        · intro M hM
          injection hM with h2
          subst h2
          rw [lookupB_updateB_self]
          intro hx
          cases hx
      · have hst : stepEv defs s e =
            ⟨updateB s.collect mid b1, s.outputs, false⟩ := by
          simp [stepEv, hcr, hk, hb0, hadd, hlen]
        rw [hst]
        have hc1 : outCount mid s.outputs + outCount mid [] =
            (if b1.consumed then 1 else 0) := by
          rw [hzero, hconsf]
          rfl
        have hinv := inv_update s mid b1 [] hs hgb1 hc1 (fun M2 _ => rfl)
        rw [List.append_nil] at hinv
        refine ⟨hinv, ?_, ?_⟩
        · intro M hM
          exact lookup_update_mono _ _ _ _ hM
        · intro M hM
          injection hM with h2
          subst h2
          rw [lookupB_updateB_self]
          intro hx
          cases hx
    · -- existing bundle
      obtain ⟨hgOld, hcOld⟩ :=
        hs.2.2.1 (mid, bOld) (lookupB_some_mem s.collect mid bOld hb0)
      rcases hadd : bOld.add e.pair with ⟨b1, oerr⟩
      obtain ⟨hcons, helemb, helema, hsupb, hsupa, hsucc⟩ :=
        add_props bOld b1 oerr e.pair hadd
      have hgb1 : goodBundle mid b1 := by
        refine ⟨?_, ?_, ?_⟩
        · intro d hd
          rcases helemb d hd with h | h
          · exact hgOld.1 d h
          · exact hwff.1 d h
        · intro d hd
          rcases helema d hd with h | h
          · exact hgOld.2.1 d h
          · exact hwff.2 d h
        · rcases hgOld.2.2 with h | h
          · rcases List.exists_mem_of_ne_nil _ h with ⟨x, hx⟩
            exact Or.inl (List.ne_nil_of_mem (hsupb x hx))
          · rcases List.exists_mem_of_ne_nil _ h with ⟨x, hx⟩
            exact Or.inr (List.ne_nil_of_mem (hsupa x hx))
      rcases oerr with _ | err
      · have hsucc2 := hsucc rfl
        have hconsf : b1.consumed = false := by
          rw [hcons, hsucc2.1]
        have hzero : outCount mid s.outputs = 0 := by
          rw [hcOld, hsucc2.1]
          rfl
        rcases Decidable.em (b1.clusters.length = defs.clusters.length) with hlen | hlen
        · obtain ⟨out, hrese, houtm, houto⟩ := resolveB_good mid b1
            (fun d hd => (hgb1.1 d hd).1) (fun d hd => (hgb1.2.1 d hd).1) hgb1.2.2
          have hst : stepEv defs s e =
              ⟨updateB s.collect mid { b1 with consumed := true },
                s.outputs ++ [out], false⟩ := by
            simp [stepEv, hcr, hk, hb0, hadd, hlen, hrese]
          rw [hst]
          refine ⟨inv_update s mid _ [out] hs hgb1 ?_ ?_, ?_, ?_⟩
          · rw [hzero, outCount_single, houtm]
            simp
          · intro M2 hne2
            rw [outCount_single, houto M2 hne2]
            simp
          · intro M hM
            exact lookup_update_mono _ _ _ _ hM
          · intro M hM
            injection hM with h2
            subst h2
            rw [lookupB_updateB_self]
            intro hx
            cases hx
        · have hst : stepEv defs s e =
              ⟨updateB s.collect mid b1, s.outputs, false⟩ := by
            simp [stepEv, hcr, hk, hb0, hadd, hlen]
          rw [hst]
          have hc1 : outCount mid s.outputs + outCount mid [] =
              (if b1.consumed then 1 else 0) := by
            rw [hzero, hconsf]
            rfl
          have hinv := inv_update s mid b1 [] hs hgb1 hc1 (fun M2 _ => rfl)
          rw [List.append_nil] at hinv
          refine ⟨hinv, ?_, ?_⟩
          · intro M hM
            exact lookup_update_mono _ _ _ _ hM
          · intro M hM
            injection hM with h2
            subst h2
            rw [lookupB_updateB_self]
            intro hx
            cases hx
      · have hst : stepEv defs s e =
            ⟨updateB s.collect mid b1,
              s.outputs ++ [OutEvent.errored (ConcErr.addErr err)], false⟩ := by
          simp [stepEv, hcr, hk, hb0, hadd]
        rw [hst]
        have hc1 : outCount mid s.outputs +
            outCount mid [OutEvent.errored (ConcErr.addErr err)] =
            (if b1.consumed then 1 else 0) := by
          rw [outCount_errored, Nat.add_zero, hcOld, hcons]
        refine ⟨inv_update s mid b1 _ hs hgb1 hc1
          (fun M2 _ => outCount_errored _ _), ?_, ?_⟩
        · intro M hM
          exact lookup_update_mono _ _ _ _ hM
        · intro M hM
          injection hM with h2
          subst h2
          rw [lookupB_updateB_self]
          intro hx
          cases hx

end Sous

namespace Sous

/-- Helper: the count of a cons of outputs. -/
theorem outCount_cons (M : ManifestID) (x : OutEvent) (l : List OutEvent) :
    outCount M (x :: l) = (if outFor M x then 1 else 0) + outCount M l := by
  cases h : outFor M x <;> simp [outCount, h, Nat.add_comm]

/-- Helper: folding the loop over well-formed events preserves the invariant,
never loses keys, and records the key of every consumed event. -/
theorem foldl_inv (defs : Defs) (es : List InEvent) (s : ConcState)
    (hs : Inv s) (hwf : ∀ e ∈ es, wfEvent e = true) :
    Inv (es.foldl (stepEv defs) s) ∧
    (∀ M, lookupB (es.foldl (stepEv defs) s).collect M = none →
      lookupB s.collect M = none) ∧
    (∀ M e, e ∈ es → keyOf e = some M →
      lookupB (es.foldl (stepEv defs) s).collect M ≠ none) := by
  induction es generalizing s with
  | nil =>
      refine ⟨hs, fun M h => h, ?_⟩
      intro M e he
      exact absurd he (List.not_mem_nil e)
  | cons e0 rest ih =>
      simp only [List.foldl_cons]
      have hw0 : wfEvent e0 = true := hwf e0 (List.mem_cons_self _ _)
      obtain ⟨h1, h2, h3⟩ := stepEv_inv defs s e0 hs hw0
      obtain ⟨ih1, ih2, ih3⟩ := ih (stepEv defs s e0) h1
        (fun e he => hwf e (List.mem_cons_of_mem _ he))
      refine ⟨ih1, ?_, ?_⟩
      · intro M hM
        exact h2 M (ih2 M hM)
      · intro M e he hke
        rcases List.mem_cons.mp he with he0 | her
        · subst he0
          intro hnone
          exact h3 M hke (ih2 M hnone)
        · exact ih3 M e her hke

/-- Helper: the shutdown flush of a bundle map with distinct keys and good
bundles emits exactly one manifest-level event for every key whose bundle was
never consumed, none for consumed keys, none for absent identities, and never
crashes. -/
theorem flushList_good (l : List (ManifestID × DeploymentBundle))
    (hnd : (l.map Prod.fst).Nodup)
    (hg : ∀ p ∈ l, goodBundle p.1 p.2) :
    (flushList l).2 = false ∧
    (∀ M b, (M, b) ∈ l →
      outCount M (flushList l).1 = (if b.consumed then 0 else 1)) ∧
    (∀ M, M ∉ l.map Prod.fst → outCount M (flushList l).1 = 0) := by
  induction l with
  | nil =>
      exact ⟨rfl, fun M b h => absurd h (List.not_mem_nil _), fun M _ => rfl⟩
  | cons p rest ih =>
      rcases p with ⟨mid, b⟩
      rw [List.map_cons, List.nodup_cons] at hnd
      obtain ⟨hnotin, hndr⟩ := hnd
      have hgm := hg (mid, b) (List.mem_cons_self _ _)
      obtain ⟨ih1, ih2, ih3⟩ :=
        ih hndr (fun q hq => hg q (List.mem_cons_of_mem _ hq))
      rcases hfr : flushList rest with ⟨outs2, c2⟩
      have hc2 : c2 = false := by
        rw [hfr] at ih1
        exact ih1
      subst hc2
      cases hc : b.consumed
      · obtain ⟨out, hrese, houtm, houto⟩ := resolveB_good mid b
          (fun d hd => (hgm.1 d hd).1) (fun d hd => (hgm.2.1 d hd).1) hgm.2.2
        have hfl : flushList ((mid, b) :: rest) = (out :: outs2, false) := by
          simp [flushList, hc, hrese, hfr]
        rw [hfl]
        refine ⟨rfl, ?_, ?_⟩
        · intro M bb hmem
          rcases List.mem_cons.mp hmem with hm | hm
          · injection hm with hma hmb
            subst hma
            subst hmb
            have h0 : outCount M outs2 = 0 := by
              have h1 := ih3 M hnotin
              rw [hfr] at h1
              exact h1
            rw [outCount_cons, houtm, h0, hc]
            rfl
          · have hM := ih2 M bb hm
            rw [hfr] at hM
            have hMne : M ≠ mid := by
              intro hMeq
              apply hnotin
              rw [← hMeq]
              have hmm := List.mem_map_of_mem Prod.fst hm
              exact hmm
            rw [outCount_cons, houto M hMne]
            simpa using hM
        · intro M hnm
          have hne : M ≠ mid := by
            intro hq
            exact hnm (by rw [hq]; exact List.mem_cons_self _ _)
          have hr2 : M ∉ rest.map Prod.fst :=
            fun hq => hnm (List.mem_cons_of_mem _ hq)
          have h0 := ih3 M hr2
          rw [hfr] at h0
          rw [outCount_cons, houto M hne, h0]
          rfl
      · have hfl : flushList ((mid, b) :: rest) = (outs2, false) := by
          simp [flushList, hc, hfr]
        rw [hfl]
        refine ⟨rfl, ?_, ?_⟩
        · intro M bb hmem
          rcases List.mem_cons.mp hmem with hm | hm
          · injection hm with hma hmb
            subst hma
            subst hmb
            rw [hc]
            have h1 := ih3 M hnotin
            rw [hfr] at h1
            exact h1
          · have hM := ih2 M bb hm
            rw [hfr] at hM
            exact hM
        · intro M hnm
          have hr2 : M ∉ rest.map Prod.fst :=
            fun hq => hnm (List.mem_cons_of_mem _ hq)
          have h0 := ih3 M hr2
          rw [hfr] at h0
          exact h0

end Sous

namespace Sous

/-- C1: for every run of the concentrator over any finite interleaving of
well-formed input events, every ManifestID that receives at least one event
gets exactly one manifest-level event on the four output channels — emitted
during the loop when the bundle completes, or during the shutdown flush when
only some clusters reported — and never more than one. -/
theorem concentrate_exactly_once (defs : Defs) (es : List InEvent)
    (M : ManifestID)
    (hwf : ∀ e ∈ es, wfEvent e = true)
    (hM : ∃ e ∈ es, keyOf e = some M) :
    outCount M (concentrate defs es).outputs = 1 := by
  obtain ⟨e0, he0, hke0⟩ := hM
  have hinit : Inv initConc := by
    refine ⟨rfl, List.nodup_nil, ?_, ?_⟩
    · intro p hp
      exact absurd hp (List.not_mem_nil p)
    · intro M2 _
      rfl
  obtain ⟨hinv, hmono, hkey⟩ := foldl_inv defs es initConc hinit hwf
  obtain ⟨hcr, hnd, hmem, habs⟩ := hinv
  have hpres := hkey M e0 he0 hke0
  rcases hlk : lookupB (es.foldl (stepEv defs) initConc).collect M with _ | bM
  · exact absurd hlk hpres
  · have hmm := lookupB_some_mem _ M bM hlk
    have hMg := hmem (M, bM) hmm
    obtain ⟨hfl1, hfl2, hfl3⟩ := flushList_good
      (es.foldl (stepEv defs) initConc).collect hnd (fun p hp => (hmem p hp).1)
    rcases hflv : flushList (es.foldl (stepEv defs) initConc).collect
      with ⟨fouts, fc⟩
    have hconc : concentrate defs es =
        ⟨(es.foldl (stepEv defs) initConc).collect,
          (es.foldl (stepEv defs) initConc).outputs ++ fouts, fc⟩ := by
      simp only [concentrate]
      rw [hcr, hflv]
      rfl
    rw [hconc]
    have hcount2 : outCount M fouts = (if bM.consumed then 0 else 1) := by
      have h2 := hfl2 M bM hmm
      rw [hflv] at h2
      exact h2
    have hgoal : outCount M
        ((es.foldl (stepEv defs) initConc).outputs ++ fouts) = 1 := by
      rw [outCount_append, hMg.2, hcount2]
      cases hcb : bM.consumed <;> simp [hcb]
    exact hgoal

/-- C1 witness: one well-formed modification event for midW from one of two
configured clusters — the bundle never completes, the shutdown flush still
emits exactly one manifest-level event for midW. -/
theorem concentrate_exactly_once_witness :
    (∀ e ∈ [evW1], wfEvent e = true) ∧
    outCount midW (concentrate ⟨["c1", "c2"]⟩ [evW1]).outputs = 1 := by
  refine ⟨by decide, concentrate_exactly_once ⟨["c1", "c2"]⟩ [evW1] midW
    (by decide) ⟨evW1, by decide, by decide⟩⟩

end Sous
